import Mathlib

/-!
Verification development for the HTML refinement pipeline of this
repository (`src/query/refine_html.py`).

Embedding conventions.
Python strings (filenames, markup, responses) are embedded as lists of
characters (`FName`); Python's code-point string ordering, `str.split`,
`str.strip`, the substring test `in`, `Path.stem` and the glob patterns
actually used by the pipeline are modelled explicitly below.  The
filesystem is embedded as explicit directory listings, and the external
effects a step can perform (the vision-service call, exceptions raised
while saving markup or appending the log, the headless renderer, the
three `datetime.now()` clock readings) are supplied by a deterministic
per-step oracle (`StepEffects`).  Paths are represented by their final
filename component; the directory structure is carried by the separate
listing fields of `EpisodeFS`.  Clock readings are abstract `Nat` time
values; `fmtTs` renders them in decimal in place of `%Y%m%d_%H%M%S`
(injective and sortable, which is all the pipeline relies on).
-/

abbrev FName := List Char

/-- Python string order (code-point lexicographic), as used by `sorted`
on same-directory `Path` values in `refine_html.py`. -/
def lexLe : FName → FName → Bool
  | [], _ => true
  | _ :: _, [] => false
  | a :: as, b :: bs =>
    if a.toNat < b.toNat then true
    else if b.toNat < a.toNat then false
    else lexLe as bs

/-- The sort order used by `sorted(...)` in the source, as a relation. -/
def lexRel (a b : FName) : Prop := lexLe a b = true

instance : DecidableRel lexRel := fun a b => Bool.decEq (lexLe a b) true

instance : IsTotal FName lexRel :=
  ⟨by
    intro a b
    show lexLe a b = true ∨ lexLe b a = true
    induction a generalizing b with
    | nil => left; rfl
    | cons c t ih =>
      cases b with
      | nil => right; rfl
      | cons d u =>
        rcases Nat.lt_trichotomy c.toNat d.toNat with h | h | h
        · left; simp [lexLe, h]
        · rcases ih u with h2 | h2
          · left; simp [lexLe, h, h2]
          · right; simp [lexLe, h, h2]
        · right; simp [lexLe, h]⟩

instance : IsTrans FName lexRel :=
  ⟨by
    intro a b c hab hbc
    show lexLe a c = true
    replace hab : lexLe a b = true := hab
    replace hbc : lexLe b c = true := hbc
    induction a generalizing b c with
    | nil => rfl
    | cons x xs ih =>
      cases b with
      | nil => simp [lexLe] at hab
      | cons y ys =>
        cases c with
        | nil => simp [lexLe] at hbc
        | cons z zs =>
          simp only [lexLe] at hab hbc ⊢
          by_cases h1 : x.toNat < y.toNat
          · by_cases h2 : y.toNat < z.toNat
            · have hxz : x.toNat < z.toNat := by omega
              simp [hxz]
            · by_cases h3 : z.toNat < y.toNat
              · rw [if_neg h2, if_pos h3] at hbc; exact absurd hbc (by simp)
              · have hxz : x.toNat < z.toNat := by omega
                simp [hxz]
          · by_cases h1' : y.toNat < x.toNat
            · rw [if_neg h1, if_pos h1'] at hab; exact absurd hab (by simp)
            · rw [if_neg h1, if_neg h1'] at hab
              by_cases h2 : y.toNat < z.toNat
              · have hxz : x.toNat < z.toNat := by omega
                simp [hxz]
              · by_cases h3 : z.toNat < y.toNat
                · rw [if_neg h2, if_pos h3] at hbc; exact absurd hbc (by simp)
                · rw [if_neg h2, if_neg h3] at hbc
                  have hxz : ¬x.toNat < z.toNat := by omega
                  have hzx : ¬z.toNat < x.toNat := by omega
                  rw [if_neg hxz, if_neg hzx]
                  exact ih ys zs hab hbc⟩

/-- Python `sorted` on filenames. -/
def lexSort (l : List FName) : List FName := List.insertionSort lexRel l

/-- Matching a glob pattern of the shape `pfx*sfx` against a filename
(the only shape `refine_html.py` uses: `{step}_*.png`, `{step}_*.html`,
`{step}_refined_*.html`, `episode_{id}_step_*.png`).  A filename matches
iff it decomposes as `pfx ++ mid ++ sfx`. -/
def globMatch (pfx sfx name : FName) : Bool :=
  pfx.isPrefixOf name && sfx.isSuffixOf name &&
    decide (pfx.length + sfx.length ≤ name.length)

/-- Python `Path.stem`: the filename with its last dot-suffix removed. -/
def stem (name : FName) : FName :=
  if name.contains '.' then
    (((name.reverse).dropWhile (fun c => c != '.')).drop 1).reverse
  else name

/-- Decimal rendering of an episode id, as in `f"episode_{episode_id}_step_"`. -/
def idName (i : Int) : FName := (toString i).toList

/-- Rendering of an abstract clock value where the source formats
`datetime.now().strftime('%Y%m%d_%H%M%S')` (line 346). -/
def fmtTs (t : Nat) : FName := (toString t).toList

/-- Python substring test `sub in s`. -/
def containsSub (sub : FName) : FName → Bool
  | [] => sub.isEmpty
  | c :: rest => sub.isPrefixOf (c :: rest) || containsSub sub rest

/-- Fuel-driven worker for Python `str.split` with a non-empty separator
`s0 :: srest`: splits at each leftmost non-overlapping occurrence.  Fuel
`s.length` always suffices (each step consumes at least one character). -/
def splitF (s0 : Char) (srest : FName) : Nat → FName → FName → List FName
  | _, [], acc => [acc.reverse]
  | 0, l, acc => [acc.reverse ++ l]
  | fuel + 1, c :: rest, acc =>
    if (s0 :: srest).isPrefixOf (c :: rest) then
      acc.reverse :: splitF s0 srest fuel (rest.drop srest.length) []
    else
      splitF s0 srest fuel rest (c :: acc)

/-- Python `s.split(sep)` for a non-empty separator. -/
def pySplit (sep s : FName) : List FName :=
  match sep with
  | [] => [s]
  | s0 :: srest => splitF s0 srest s.length s []

/-- Python list indexing as used under the `in`-guards of
`_clean_html_response` (indices are in range there). -/
def pyIndex (l : List FName) (i : Nat) : FName := l.getD i []

/-- Python `str.strip()` (leading and trailing whitespace removed). -/
def pyStrip (s : FName) : FName :=
  ((s.dropWhile Char.isWhitespace).reverse.dropWhile Char.isWhitespace).reverse

/-- The tagged fence marker scanned for first, source line 95. -/
def fenceHtml : FName := "```html".toList

/-- The plain fence marker, source lines 96-98. -/
def fenceTicks : FName := "```".toList

/-- Model of `HTMLRefiner._clean_html_response` (source lines 92-100): strip a
markdown code fence from the model response, then trim whitespace. -/
def clean_html_response (html : FName) : FName :=
  let body :=
    if containsSub fenceHtml html then
      pyIndex (pySplit fenceTicks (pyIndex (pySplit fenceHtml html) 1)) 0
    else if containsSub fenceTicks html then
      pyIndex (pySplit fenceTicks (pyIndex (pySplit fenceTicks html) 1)) 0
    else html
  pyStrip body

/-- Environment for one `render_html` invocation: whether the headless
browsing capability (Playwright) can be imported, and whether the render
attempt itself raises. -/
structure RenderEnv where
  available : Bool
  renderFails : Bool

/-- Model of `HTMLRefiner.render_html` (source lines 184-239): returns the output
path on success; `None` when the capability is missing (`ImportError`)
or when the render attempt raises.  Total by construction: no exception
reaches the caller. -/
def render_html (env : RenderEnv) (_html_code : String) (output_path : FName) :
    Option FName :=
  if env.available = false then none
  else if env.renderFails = true then none
  else some output_path

/-- The `html` subdirectory name (selects extension `html` in the
locator's pattern). -/
def htmlSubName : FName := "html".toList

/-- The `screenshots` subdirectory name passed by `refine_episode`. -/
def screenshotsSub : FName := "screenshots".toList

/-- Extension chosen by the locator: `'html' if subdir == 'html' else 'png'`
(source line 258). -/
def extFor (subdir : FName) : FName :=
  if subdir = htmlSubName then "html".toList else "png".toList

/-- The fixed pieces of the refined-artifact names and patterns. -/
def refinedMid : FName := "_refined_".toList

def htmlDotExt : FName := ".html".toList

def pngDotExt : FName := ".png".toList

/-- The files of `generated/{subdir}` matching `{step_name}_*.{ext}`. -/
def locateMatches (listing : List FName) (step_name subdir : FName) : List FName :=
  listing.filter (fun n => globMatch (step_name ++ ['_']) ('.' :: extFor subdir) n)

/-- Model of `HTMLRefiner.find_latest_generated_file` (source lines 241-265):
`None` when the target subdirectory does not exist or nothing matches;
otherwise the last element of the sorted match list. -/
def find_latest_generated_file (dirExists : Bool) (listing : List FName)
    (step_name subdir : FName) : Option FName :=
  if dirExists = false then none
  else (lexSort (locateMatches listing step_name subdir)).getLast?

/-- Per-step external effects, all deterministic in the step name:
the vision-service call of `refine_html` (an exception message or the
returned markup), whether saving the markup raises, the renderer
environment, whether appending the log raises, and the three
`datetime.now()` readings of source lines 346, 365 and 373. -/
structure StepEffects where
  refineResult : Except String String
  saveErr : Option String
  renderAvailable : Bool
  renderFails : Bool
  logErr : Option String
  tSave : Nat
  tLog : Nat
  tLogDay : Nat

/-- One refinement-log record (source lines 364-371). -/
structure LogEntry where
  timestamp : Nat
  step_name : FName
  ground_truth : FName
  generated_screenshot : FName
  refined_html : FName
  refined_screenshot : Option FName
deriving DecidableEq

/-- Everything a successfully processed step produced: the `timestamp`
local of source line 346, the two artifact filenames and the log record. -/
structure ProcessedArtifacts where
  ts : Nat
  html_filename : FName
  screenshot_filename : FName
  log : LogEntry
deriving DecidableEq

/-- Terminal state of one step of `refine_episode`'s loop. -/
inductive StepOutcome where
  | skippedNoCandidate
  | skippedAlreadyRefined
  | processed (arts : ProcessedArtifacts)
  | errored (msg : String) (htmlCreated : Option FName)
deriving DecidableEq

/-- The body of `refine_episode`'s per-image loop (source lines 314-383)
for one ground-truth image.  `sde`/`shots` are the existence flag and
listing of `generated/screenshots`; `regenHtml` is the current listing of
`regenerated/html`; `eff` the step's external effects.  An exception in
the `try` block yields `errored` together with the markup file the step
managed to create before raising (present exactly when the log append is
what raised). -/
def processStep (sde : Bool) (shots : List FName) (regenHtml : List FName)
    (eff : StepEffects) (gtImage : FName) : StepOutcome :=
  let step_name := stem gtImage
  match find_latest_generated_file sde shots step_name screenshotsSub with
  | none => .skippedNoCandidate
  | some gshot =>
    if (regenHtml.filter
          (fun n => globMatch (step_name ++ refinedMid) htmlDotExt n)).isEmpty = false then
      .skippedAlreadyRefined
    else
      match eff.refineResult with
      | .error e =>
        .errored ("Error processing " ++ String.mk step_name ++ ": " ++ e) none
      | .ok _refined =>
        let ts := eff.tSave
        let html_filename := step_name ++ refinedMid ++ fmtTs ts ++ htmlDotExt
        let screenshot_filename := step_name ++ refinedMid ++ fmtTs ts ++ pngDotExt
        match eff.saveErr with
        | some e =>
          .errored ("Error processing " ++ String.mk step_name ++ ": " ++ e) none
        | none =>
          let rendered :=
            render_html ⟨eff.renderAvailable, eff.renderFails⟩ _refined
              screenshot_filename
          match eff.logErr with
          | some e =>
            .errored ("Error processing " ++ String.mk step_name ++ ": " ++ e)
              (some html_filename)
          | none =>
            .processed ⟨ts, html_filename, screenshot_filename,
              ⟨eff.tLog, step_name, gtImage, gshot, html_filename,
                if rendered.isSome then some screenshot_filename else none⟩⟩

/-- Per-episode statistics dictionary of source lines 282-287. -/
structure EpisodeStats where
  episode_id : Int
  steps_processed : Nat
  steps_skipped : Nat
  errors : List String
deriving DecidableEq

/-- How one step outcome updates the statistics and the
`regenerated/html` listing (source lines 322-383). -/
def applyOutcome (stats : EpisodeStats) (regen : List FName) :
    StepOutcome → EpisodeStats × List FName
  | .skippedNoCandidate =>
    ({ stats with steps_skipped := stats.steps_skipped + 1 }, regen)
  | .skippedAlreadyRefined =>
    ({ stats with steps_skipped := stats.steps_skipped + 1 }, regen)
  | .processed a =>
    ({ stats with steps_processed := stats.steps_processed + 1 },
      regen ++ [a.html_filename])
  | .errored msg created =>
    ({ stats with
        steps_skipped := stats.steps_skipped + 1
        errors := stats.errors ++ [msg] },
      regen ++ created.toList)

/-- The per-image loop of `refine_episode`, threading the statistics and
the growing `regenerated/html` listing. -/
def runSteps (sde : Bool) (shots : List FName) (o : FName → StepEffects) :
    List FName → EpisodeStats → List FName → EpisodeStats × List FName
  | [], stats, regen => (stats, regen)
  | gt :: rest, stats, regen =>
    let next := applyOutcome stats regen (processStep sde shots regen (o (stem gt)) gt)
    runSteps sde shots o rest next.1 next.2

/-- An episode directory as the pipeline sees it: whether `generated`
exists, the top-level listing of the episode directory, the existence
flag and listing of `generated/screenshots`, and the listing of
`regenerated/html` (empty when that directory is yet to be created by the
unconditional `mkdir` calls of source lines 296-302). -/
structure EpisodeFS where
  generatedExists : Bool
  episodeFiles : List FName
  screenshotsDirExists : Bool
  generatedScreenshots : List FName
  regeneratedHtml : List FName
deriving DecidableEq

/-- The ground-truth images discovered by
`sorted(episode_dir.glob(f"episode_{episode_id}_step_*.png"))`
(source line 305). -/
def discoveredGroundTruth (fs : EpisodeFS) (eid : Int) : List FName :=
  lexSort (fs.episodeFiles.filter
    (fun n => globMatch ("episode_".toList ++ idName eid ++ "_step_".toList) pngDotExt n))

/-- Model of `HTMLRefiner.refine_episode` (source lines 267-385), returning the
statistics it builds together with the episode directory state it leaves
behind (only the `regenerated/html` listing can change). -/
def refine_episode (fs : EpisodeFS) (o : FName → StepEffects) (episode_id : Int) :
    EpisodeStats × EpisodeFS :=
  let stats0 : EpisodeStats := ⟨episode_id, 0, 0, []⟩
  if fs.generatedExists = false then
    ({ stats0 with errors := ["No 'generated' directory found"] }, fs)
  else
    let gts := discoveredGroundTruth fs episode_id
    if gts.isEmpty then
      ({ stats0 with errors := ["No ground truth images found"] }, fs)
    else
      let res := runSteps fs.screenshotsDirExists fs.generatedScreenshots o gts
        stats0 fs.regeneratedHtml
      (res.1, { fs with regeneratedHtml := res.2 })

/-- Aggregate statistics dictionary of source lines 422-429. -/
structure RangeStats where
  total_episodes : Nat
  episodes_processed : Nat
  episodes_skipped : Nat
  total_steps_processed : Nat
  total_steps_skipped : Nat
  episode_details : List EpisodeStats
deriving DecidableEq

/-- The base directory as the range driver sees it: whether it exists and,
per episode id, the episode directory (absent when the directory itself is
missing). -/
structure RangeFS where
  baseDirExists : Bool
  episodes : Int → Option EpisodeFS

/-- The failures that abort a whole run: the two bound validations of
`main` (source lines 502-508) and the missing base directory
(`FileNotFoundError`, source lines 412-413). -/
inductive RunError where
  | invalidStartId
  | invalidEndId
  | baseDirNotFound
deriving DecidableEq

/-- Python `range(start_id, end_id + 1)` over integer episode ids. -/
def idRange (s e : Int) : List Int :=
  (List.range (e + 1 - s).toNat).map (fun (k : Nat) => s + (k : Int))

/-- One iteration of the range loop (source lines 432-460): count the
episode, skip it when its directory or its `generated` subdirectory is
absent, otherwise delegate to `refine_episode` and fold its statistics in. -/
def stepRange (rfs : RangeFS) (o : Int → FName → StepEffects)
    (acc : RangeStats) (i : Int) : RangeStats :=
  let acc1 := { acc with total_episodes := acc.total_episodes + 1 }
  match rfs.episodes i with
  | none => { acc1 with episodes_skipped := acc1.episodes_skipped + 1 }
  | some efs =>
    if efs.generatedExists = false then
      { acc1 with episodes_skipped := acc1.episodes_skipped + 1 }
    else
      let es := (refine_episode efs (o i) i).1
      { acc1 with
        episodes_processed := acc1.episodes_processed + 1,
        total_steps_processed := acc1.total_steps_processed + es.steps_processed,
        total_steps_skipped := acc1.total_steps_skipped + es.steps_skipped,
        episode_details := acc1.episode_details ++ [es] }

/-- The range loop. -/
def foldEpisodes (rfs : RangeFS) (o : Int → FName → StepEffects) :
    List Int → RangeStats → RangeStats
  | [], acc => acc
  | i :: rest, acc => foldEpisodes rfs o rest (stepRange rfs o acc i)

def initRangeStats : RangeStats := ⟨0, 0, 0, 0, 0, []⟩

/-- Model of `HTMLRefiner.refine_episode_range` (source lines 387-478) with the
base directory always supplied (as `main` does). -/
def refine_episode_range (rfs : RangeFS) (o : Int → FName → StepEffects)
    (start_id end_id : Int) : Except RunError RangeStats :=
  if rfs.baseDirExists = false then .error .baseDirNotFound
  else .ok (foldEpisodes rfs o (idRange start_id end_id) initRangeStats)

/-- The range-driver entry point: `main`'s bound validation (source lines
501-508) composed with `refine_episode_range`. -/
def runRange (rfs : RangeFS) (o : Int → FName → StepEffects)
    (start_id end_id : Int) : Except RunError RangeStats :=
  if start_id < 1 then .error .invalidStartId
  else if end_id < start_id then .error .invalidEndId
  else refine_episode_range rfs o start_id end_id

/-- Episode ids the range driver actually processes (directory and
`generated` subdirectory both present). -/
def isProcessedEpisode (rfs : RangeFS) (i : Int) : Bool :=
  match rfs.episodes i with
  | some efs => efs.generatedExists
  | none => false

/-- The detail record the range driver appends for a processed episode. -/
def episodeDetail (rfs : RangeFS) (o : Int → FName → StepEffects) (i : Int) :
    EpisodeStats :=
  match rfs.episodes i with
  | some efs => (refine_episode efs (o i) i).1
  | none => ⟨i, 0, 0, []⟩

/-- Projection used to state the C5 counterexample: the filename
timestamp (`timestamp` local of source line 346) of a processed step. -/
def procNameTs : StepOutcome → Option Nat
  | .processed a => some a.ts
  | _ => none

/-- Projection used to state the C5 counterexample: the log entry's
`timestamp` field (the separate `datetime.now()` of source line 365). -/
def procLogTs : StepOutcome → Option Nat
  | .processed a => some a.log.timestamp
  | _ => none

/-- The files a step outcome adds to `regenerated/html`. -/
def outFiles : StepOutcome → List FName
  | .processed a => [a.html_filename]
  | .errored _ created => created.toList
  | _ => []

/-- Concrete fixture: an episode directory with no `generated`
subdirectory. -/
def fsNoGen : EpisodeFS := ⟨false, [], false, [], []⟩

/-- Concrete fixture: a trivial effects oracle. -/
def oTrivial : FName → StepEffects :=
  fun _ => ⟨.ok "", none, false, false, none, 0, 0, 0⟩

/-- Concrete fixture: one candidate screenshot for step `a`. -/
def shotsA : List FName := ["a_1.png".toList]

/-- Concrete fixture: a ground-truth image for step `a`. -/
def gtA : FName := "a.png".toList

/-- Concrete fixture: a `regenerated/html` listing already holding a
refined file for step `a`. -/
def regenA : List FName := ["a_refined_1.html".toList]

/-- Concrete fixture: an oracle whose vision-service call raises. -/
def oRefineErr : FName → StepEffects :=
  fun _ => ⟨.error "boom", none, false, false, none, 0, 0, 0⟩

/-- Concrete fixture: effects that succeed with the renderer unavailable
and with the clock advancing between the two `datetime.now()` calls of
source lines 346 and 365. -/
def effC5 : StepEffects := ⟨.ok "h", none, false, false, none, 0, 1, 2⟩

/-- The artifacts `processStep true shotsA [] effC5 gtA` produces. -/
def artsW : ProcessedArtifacts :=
  ⟨0, "a_refined_0.html".toList, "a_refined_0.png".toList,
    ⟨1, "a".toList, "a.png".toList, "a_1.png".toList,
      "a_refined_0.html".toList, none⟩⟩

/-- Concrete fixture: an existing base directory with every episode
directory missing. -/
def rfsEmpty : RangeFS := ⟨true, fun _ => none⟩

/-- Concrete fixture: a trivial per-episode oracle. -/
def oRange : Int → FName → StepEffects := fun _ => oTrivial

/-! ### General lemmas about the embedded string primitives -/

theorem getLast?_mem' {α : Type _} {l : List α} {a : α} (h : l.getLast? = some a) :
    a ∈ l := by
  induction l with
  | nil => simp at h
  | cons b t ih =>
    cases t with
    | nil =>
      rw [List.getLast?_singleton] at h
      simp at h
      simp [h]
    | cons c t' =>
      rw [List.getLast?_cons_cons] at h
      exact List.mem_cons_of_mem _ (ih h)

theorem lexLe_refl (a : FName) : lexLe a a = true := by
  induction a with
  | nil => rfl
  | cons c t ih => simp [lexLe, ih]

theorem sorted_getLast_le (l : List FName) (hs : List.Sorted lexRel l) (r : FName)
    (hr : l.getLast? = some r) : ∀ m ∈ l, lexLe m r = true := by
  induction l with
  | nil => simp at hr
  | cons a t ih =>
    intro m hm
    cases t with
    | nil =>
      rw [List.getLast?_singleton] at hr
      simp at hr
      simp at hm
      subst hr; subst hm
      exact lexLe_refl m
    | cons b t' =>
      rw [List.getLast?_cons_cons] at hr
      rw [List.sorted_cons] at hs
      rcases hs with ⟨ha, hs'⟩
      rcases List.mem_cons.mp hm with rfl | hm'
      · exact ha r (getLast?_mem' hr)
      · exact ih hs' hr m hm'

theorem isPrefixOf_append_self (l t : FName) : l.isPrefixOf (l ++ t) = true :=
  List.isPrefixOf_iff_prefix.mpr (List.prefix_append l t)

theorem isSuffixOf_append_self (l t : FName) : t.isSuffixOf (l ++ t) = true :=
  List.isSuffixOf_iff_suffix.mpr (List.suffix_append l t)

theorem globMatch_decomp (pfx mid sfx : FName) :
    globMatch pfx sfx (pfx ++ mid ++ sfx) = true := by
  rw [globMatch, Bool.and_eq_true, Bool.and_eq_true]
  refine ⟨⟨?_, ?_⟩, ?_⟩
  · exact List.isPrefixOf_iff_prefix.mpr ⟨mid ++ sfx, by simp⟩
  · exact List.isSuffixOf_iff_suffix.mpr ⟨pfx ++ mid, by simp⟩
  · simp [List.length_append]

theorem filter_isEmpty_false_append {r t : List FName} {p : FName → Bool}
    (h : (r.filter p).isEmpty = false) : ((r ++ t).filter p).isEmpty = false := by
  rw [List.filter_append]
  cases hf : r.filter p with
  | nil => rw [hf] at h; simp at h
  | cons x xs => simp [hf]

theorem filter_isEmpty_false_of_mem {R : List FName} {p : FName → Bool} {x : FName}
    (hx : x ∈ R) (hp : p x = true) : (R.filter p).isEmpty = false := by
  cases hf : R.filter p with
  | nil =>
    have hmem := List.mem_filter.mpr ⟨hx, hp⟩
    rw [hf] at hmem
    simp at hmem
  | cons y ys => simp

/-! ### Lemmas about the embedded Python `str.split` -/

theorem splitF_nil (s0 : Char) (srest : FName) (fuel : Nat) (acc : FName) :
    splitF s0 srest fuel [] acc = [acc.reverse] := by
  cases fuel <;> rfl

theorem splitF_fuel_irrel (s0 : Char) (srest : FName) :
    ∀ (f1 f2 : Nat) (a acc : FName), a.length ≤ f1 → a.length ≤ f2 →
      splitF s0 srest f1 a acc = splitF s0 srest f2 a acc := by
  intro f1
  induction f1 with
  | zero =>
    intro f2 a acc h1 _
    have ha : a = [] := List.length_eq_zero.mp (Nat.le_zero.mp h1)
    subst ha
    rw [splitF_nil, splitF_nil]
  | succ n ih =>
    intro f2 a acc h1 h2
    cases a with
    | nil => rw [splitF_nil, splitF_nil]
    | cons c rest =>
      cases f2 with
      | zero => simp at h2
      | succ m =>
        simp only [splitF]
        simp only [List.length_cons] at h1 h2
        by_cases hp : (s0 :: srest).isPrefixOf (c :: rest) = true
        · rw [if_pos hp, if_pos hp]
          have hd1 : (rest.drop srest.length).length ≤ n := by
            rw [List.length_drop]; omega
          have hd2 : (rest.drop srest.length).length ≤ m := by
            rw [List.length_drop]; omega
          rw [ih m _ [] hd1 hd2]
        · rw [if_neg hp, if_neg hp]
          exact ih m rest (c :: acc) (by omega) (by omega)

theorem splitF_no_occ (s0 : Char) (srest : FName) :
    ∀ (a : FName) (fuel : Nat) (acc : FName), a.length ≤ fuel →
      (∀ t, t <:+ a → t ≠ [] → (s0 :: srest).isPrefixOf t = false) →
      splitF s0 srest fuel a acc = [acc.reverse ++ a] := by
  intro a
  induction a with
  | nil => intro fuel acc _ _; rw [splitF_nil]; simp
  | cons c rest ih =>
    intro fuel acc hf hno
    cases fuel with
    | zero => simp at hf
    | succ n =>
      have hp : (s0 :: srest).isPrefixOf (c :: rest) = false :=
        hno (c :: rest) (List.suffix_refl _) (by simp)
      simp only [splitF]
      rw [if_neg (by simp [hp])]
      rw [ih n (c :: acc) (by simp at hf; omega)
        (fun t ht hne => hno t (ht.trans (List.suffix_cons c rest)) hne)]
      simp

theorem splitF_first_occ (s0 : Char) (srest : FName) :
    ∀ (a : FName) (fuel : Nat) (acc b : FName),
      a.length + srest.length + b.length < fuel →
      (∀ t, t <:+ a → t ≠ [] →
        (s0 :: srest).isPrefixOf (t ++ (s0 :: srest) ++ b) = false) →
      splitF s0 srest fuel (a ++ (s0 :: srest) ++ b) acc =
        (acc.reverse ++ a) :: splitF s0 srest b.length b [] := by
  intro a
  induction a with
  | nil =>
    intro fuel acc b hf _
    cases fuel with
    | zero => omega
    | succ n =>
      have hinput : ([] : FName) ++ (s0 :: srest) ++ b = s0 :: (srest ++ b) := by simp
      rw [hinput]
      simp only [splitF]
      have hp : (s0 :: srest).isPrefixOf (s0 :: (srest ++ b)) = true := by
        have h := isPrefixOf_append_self (s0 :: srest) b
        rw [List.cons_append] at h
        exact h
      rw [if_pos (by simp [hp])]
      rw [List.drop_left]
      have hfi : splitF s0 srest n b [] = splitF s0 srest b.length b [] := by
        apply splitF_fuel_irrel
        · simp only [List.length_nil] at hf ⊢; omega
        · exact le_rfl
      rw [hfi]
      simp
  | cons c a' ih =>
    intro fuel acc b hf hA
    cases fuel with
    | zero => simp at hf
    | succ n =>
      have hinput : ((c :: a') ++ (s0 :: srest) ++ b) =
          c :: (a' ++ (s0 :: srest) ++ b) := by simp
      rw [hinput]
      simp only [splitF]
      have hp : (s0 :: srest).isPrefixOf (c :: (a' ++ (s0 :: srest) ++ b)) = false := by
        have h := hA (c :: a') (List.suffix_refl _) (by simp)
        rw [List.cons_append] at h
        exact h
      rw [if_neg (by simp only [hp]; exact Bool.false_ne_true)]
      rw [ih n (c :: acc) b (by simp at hf; omega)
        (fun t ht hne => hA t (ht.trans (List.suffix_cons c a')) hne)]
      simp

theorem pySplit_first (s0 : Char) (srest a b : FName)
    (hA : ∀ t, t <:+ a → t ≠ [] →
      (s0 :: srest).isPrefixOf (t ++ (s0 :: srest) ++ b) = false) :
    pySplit (s0 :: srest) (a ++ (s0 :: srest) ++ b) = a :: pySplit (s0 :: srest) b := by
  show splitF s0 srest (a ++ (s0 :: srest) ++ b).length (a ++ (s0 :: srest) ++ b) [] =
    a :: splitF s0 srest b.length b []
  rw [splitF_first_occ s0 srest a _ [] b (by simp [List.length_append]; omega) hA]
  simp

theorem pySplit_no_occ (s0 : Char) (srest a : FName)
    (h : ∀ t, t <:+ a → t ≠ [] → (s0 :: srest).isPrefixOf t = false) :
    pySplit (s0 :: srest) a = [a] := by
  show splitF s0 srest a.length a [] = [a]
  rw [splitF_no_occ s0 srest a a.length [] le_rfl h]
  simp

theorem containsSub_append_self (s0 : Char) (srest a b : FName) :
    containsSub (s0 :: srest) (a ++ (s0 :: srest) ++ b) = true := by
  induction a with
  | nil =>
    have hinput : ([] : FName) ++ (s0 :: srest) ++ b = s0 :: (srest ++ b) := by simp
    rw [hinput]
    simp only [containsSub]
    have hp : (s0 :: srest).isPrefixOf (s0 :: (srest ++ b)) = true := by
      have h := isPrefixOf_append_self (s0 :: srest) b
      rw [List.cons_append] at h
      exact h
    simp [hp]
  | cons c a' ih =>
    have hinput : ((c :: a') ++ (s0 :: srest) ++ b) =
        c :: (a' ++ (s0 :: srest) ++ b) := by simp
    rw [hinput]
    simp only [containsSub]
    rw [ih, Bool.or_true]

theorem suffix_append_cases {t x y : FName} (h : t <:+ x ++ y) :
    t <:+ y ∨ ∃ p, p <:+ x ∧ p ≠ [] ∧ t = p ++ y := by
  induction x with
  | nil => left; simpa using h
  | cons c x' ih =>
    rw [List.cons_append, List.suffix_cons_iff] at h
    rcases h with rfl | h
    · right; exact ⟨c :: x', List.suffix_refl _, by simp, by simp⟩
    · rcases ih h with h1 | ⟨p, hp, hne, rfl⟩
      · left; exact h1
      · right; exact ⟨p, hp.trans (List.suffix_cons c x'), hne, rfl⟩

theorem fence_isPrefixOf_false {t : FName} (srest : FName) (hc : ∀ c ∈ t, c ≠ '`')
    (hne : t ≠ []) (x : FName) : ('`' :: srest).isPrefixOf (t ++ x) = false := by
  cases t with
  | nil => exact absurd rfl hne
  | cons c t' =>
    have hcc : ('`' == c) = false :=
      beq_eq_false_iff_ne.mpr (Ne.symm (hc c (by simp)))
    simp [List.isPrefixOf, hcc]

theorem fence_isPrefixOf_false' {t : FName} (srest : FName) (hc : ∀ c ∈ t, c ≠ '`')
    (hne : t ≠ []) : ('`' :: srest).isPrefixOf t = false := by
  have h := fence_isPrefixOf_false srest hc hne []
  simpa using h

theorem isPrefixOf_append_cancel (x y z : FName) :
    (x ++ y).isPrefixOf (x ++ z) = y.isPrefixOf z := by
  induction x with
  | nil => simp
  | cons c x' ih => simp [List.isPrefixOf, ih]

theorem tick_head_isPrefixOf_false (srest : FName) {t : FName}
    (hc : ∀ c ∈ t, c ≠ '`') : ('`' :: srest).isPrefixOf t = false := by
  cases t with
  | nil => rfl
  | cons c t' =>
    have hcc : ('`' == c) = false :=
      beq_eq_false_iff_ne.mpr (Ne.symm (hc c (by simp)))
    simp [List.isPrefixOf, hcc]

theorem fenceHtml_cons : fenceHtml = '`' :: "``html".toList := by decide

theorem fenceTicks_cons : fenceTicks = '`' :: "``".toList := by decide

theorem ticks_append_html : fenceTicks ++ "html".toList = fenceHtml := by decide

theorem fenceHtml_split2 : fenceHtml = "``".toList ++ "`html".toList := by decide

theorem fenceHtml_split1 : fenceHtml = "`".toList ++ "``html".toList := by decide

theorem backtick_html_cons : "`html".toList = '`' :: "html".toList := by decide

theorem ticks2_html_cons : "``html".toList = '`' :: "`html".toList := by decide

theorem suffix_of_ticks {p : FName} (h : p <:+ fenceTicks) (hne : p ≠ []) :
    p = "```".toList ∨ p = "``".toList ∨ p = "`".toList := by
  have hT : fenceTicks = '`' :: '`' :: '`' :: [] := by decide
  rw [hT] at h
  rcases List.suffix_cons_iff.mp h with rfl | h2
  · left; decide
  rcases List.suffix_cons_iff.mp h2 with rfl | h3
  · right; left; decide
  rcases List.suffix_cons_iff.mp h3 with rfl | h4
  · right; right; decide
  · exact absurd (List.suffix_nil.mp h4) hne

/-- Cleanup of a response carrying a `` ```html ``-tagged fenced block:
the content between the tag and the following fence is extracted and
trimmed.  The response's only backticks outside the block content are the
fence markers themselves. -/
theorem clean_branch1 (pre mid post : FName)
    (h1 : ∀ c ∈ pre, c ≠ '`') (h2 : ∀ c ∈ mid, c ≠ '`') (h3 : ∀ c ∈ post, c ≠ '`') :
    clean_html_response (pre ++ fenceHtml ++ mid ++ fenceTicks ++ post) = pyStrip mid := by
  have hshape1 : pre ++ fenceHtml ++ mid ++ fenceTicks ++ post
      = pre ++ fenceHtml ++ (mid ++ fenceTicks ++ post) := by
    simp [List.append_assoc]
  have hcond : containsSub fenceHtml
      (pre ++ fenceHtml ++ mid ++ fenceTicks ++ post) = true := by
    rw [hshape1, fenceHtml_cons]
    exact containsSub_append_self _ _ _ _
  simp only [clean_html_response]
  rw [if_pos hcond]
  have hsplit1 : pySplit fenceHtml (pre ++ fenceHtml ++ mid ++ fenceTicks ++ post)
      = pre :: pySplit fenceHtml (mid ++ fenceTicks ++ post) := by
    rw [hshape1, fenceHtml_cons]
    apply pySplit_first
    intro t ht hne
    rw [List.append_assoc]
    exact fence_isPrefixOf_false _ (fun c hc => h1 c (ht.subset hc)) hne _
  rw [hsplit1]
  simp only [pyIndex, List.getD_cons_succ]
  cases hp : ("html".toList).isPrefixOf post with
  | true =>
    obtain ⟨post', hpost⟩ := List.isPrefixOf_iff_prefix.mp hp
    have e1 : mid ++ fenceTicks ++ post = mid ++ fenceHtml ++ post' := by
      rw [← hpost, ← ticks_append_html]
      simp [List.append_assoc]
    rw [e1]
    have hsplit2 : pySplit fenceHtml (mid ++ fenceHtml ++ post')
        = mid :: pySplit fenceHtml post' := by
      rw [fenceHtml_cons]
      apply pySplit_first
      intro t ht hne
      rw [List.append_assoc]
      exact fence_isPrefixOf_false _ (fun c hc => h2 c (ht.subset hc)) hne _
    rw [hsplit2]
    simp only [List.getD_cons_zero]
    have hsplit3 : pySplit fenceTicks mid = [mid] := by
      rw [fenceTicks_cons]
      apply pySplit_no_occ
      intro t ht _
      exact tick_head_isPrefixOf_false _ (fun c hc => h2 c (ht.subset hc))
    rw [hsplit3]
    simp only [List.getD_cons_zero]
  | false =>
    have hnofh : pySplit fenceHtml (mid ++ fenceTicks ++ post)
        = [mid ++ fenceTicks ++ post] := by
      rw [fenceHtml_cons]
      apply pySplit_no_occ
      intro t ht hne
      rw [← fenceHtml_cons]
      have ht' : t <:+ mid ++ (fenceTicks ++ post) := by rwa [← List.append_assoc]
      rcases suffix_append_cases ht' with h4 | ⟨p, hpmid, hpne, rfl⟩
      · rcases suffix_append_cases h4 with h5 | ⟨q, hq, hqne, rfl⟩
        · rw [fenceHtml_cons]
          exact tick_head_isPrefixOf_false _ (fun c hc => h3 c (h5.subset hc))
        · rcases suffix_of_ticks hq hqne with rfl | rfl | rfl
          · rw [show ("```".toList : FName) = fenceTicks from by decide,
              ← ticks_append_html, isPrefixOf_append_cancel]
            exact hp
          · rw [fenceHtml_split2, isPrefixOf_append_cancel, backtick_html_cons]
            exact tick_head_isPrefixOf_false _ (fun c hc => h3 c hc)
          · rw [fenceHtml_split1, isPrefixOf_append_cancel, ticks2_html_cons]
            exact tick_head_isPrefixOf_false _ (fun c hc => h3 c hc)
      · rw [fenceHtml_cons]
        exact fence_isPrefixOf_false _ (fun c hc => h2 c (hpmid.subset hc)) hpne _
    rw [hnofh]
    simp only [List.getD_cons_zero]
    have hsplitT : pySplit fenceTicks (mid ++ fenceTicks ++ post)
        = mid :: pySplit fenceTicks post := by
      rw [fenceTicks_cons]
      apply pySplit_first
      intro t ht hne
      rw [List.append_assoc]
      exact fence_isPrefixOf_false _ (fun c hc => h2 c (ht.subset hc)) hne _
    rw [hsplitT]
    simp only [List.getD_cons_zero]

/-- Cleanup of a response carrying a plain fenced block (and no
`` ```html `` tag anywhere): the content between the first fence pair is
extracted and trimmed. -/
theorem clean_branch2 (pre mid post : FName)
    (h1 : ∀ c ∈ pre, c ≠ '`') (h2 : ∀ c ∈ mid, c ≠ '`')
    (hnf : containsSub fenceHtml
      (pre ++ fenceTicks ++ mid ++ fenceTicks ++ post) = false) :
    clean_html_response (pre ++ fenceTicks ++ mid ++ fenceTicks ++ post) = pyStrip mid := by
  have hshape1 : pre ++ fenceTicks ++ mid ++ fenceTicks ++ post
      = pre ++ fenceTicks ++ (mid ++ fenceTicks ++ post) := by
    simp [List.append_assoc]
  have hcond : containsSub fenceTicks
      (pre ++ fenceTicks ++ mid ++ fenceTicks ++ post) = true := by
    rw [hshape1, fenceTicks_cons]
    exact containsSub_append_self _ _ _ _
  simp only [clean_html_response]
  rw [if_neg (by simp only [hnf]; exact Bool.false_ne_true)]
  rw [if_pos hcond]
  have hsplit1 : pySplit fenceTicks (pre ++ fenceTicks ++ mid ++ fenceTicks ++ post)
      = pre :: pySplit fenceTicks (mid ++ fenceTicks ++ post) := by
    rw [hshape1, fenceTicks_cons]
    apply pySplit_first
    intro t ht hne
    rw [List.append_assoc]
    exact fence_isPrefixOf_false _ (fun c hc => h1 c (ht.subset hc)) hne _
  rw [hsplit1]
  simp only [pyIndex, List.getD_cons_succ]
  have hsplit2 : pySplit fenceTicks (mid ++ fenceTicks ++ post)
      = mid :: pySplit fenceTicks post := by
    rw [fenceTicks_cons]
    apply pySplit_first
    intro t ht hne
    rw [List.append_assoc]
    exact fence_isPrefixOf_false _ (fun c hc => h2 c (ht.subset hc)) hne _
  rw [hsplit2]
  simp only [List.getD_cons_zero]
  have hsplit3 : pySplit fenceTicks mid = [mid] := by
    rw [fenceTicks_cons]
    apply pySplit_no_occ
    intro t ht _
    exact tick_head_isPrefixOf_false _ (fun c hc => h2 c (ht.subset hc))
  rw [hsplit3]
  simp only [List.getD_cons_zero]

/-! ### Characterization of one step of the episode loop -/

theorem processStep_noCand (sde : Bool) (shots regen : List FName)
    (eff : StepEffects) (gt : FName)
    (h : find_latest_generated_file sde shots (stem gt) screenshotsSub = none) :
    processStep sde shots regen eff gt = .skippedNoCandidate := by
  simp only [processStep, h]

theorem processStep_already (sde : Bool) (shots regen : List FName)
    (eff : StepEffects) (gt g : FName)
    (h : find_latest_generated_file sde shots (stem gt) screenshotsSub = some g)
    (h2 : (regen.filter
      (fun n => globMatch (stem gt ++ refinedMid) htmlDotExt n)).isEmpty = false) :
    processStep sde shots regen eff gt = .skippedAlreadyRefined := by
  simp only [processStep, h]
  rw [if_pos h2]

theorem processStep_refine_err (sde : Bool) (shots regen : List FName)
    (eff : StepEffects) (gt g : FName) (e : String)
    (h : find_latest_generated_file sde shots (stem gt) screenshotsSub = some g)
    (h2 : (regen.filter
      (fun n => globMatch (stem gt ++ refinedMid) htmlDotExt n)).isEmpty = true)
    (h3 : eff.refineResult = .error e) :
    processStep sde shots regen eff gt =
      .errored ("Error processing " ++ String.mk (stem gt) ++ ": " ++ e) none := by
  simp only [processStep, h, h3]
  rw [if_neg (by simp [h2])]

theorem processStep_save_err (sde : Bool) (shots regen : List FName)
    (eff : StepEffects) (gt g : FName) (content e : String)
    (h : find_latest_generated_file sde shots (stem gt) screenshotsSub = some g)
    (h2 : (regen.filter
      (fun n => globMatch (stem gt ++ refinedMid) htmlDotExt n)).isEmpty = true)
    (h3 : eff.refineResult = .ok content) (h4 : eff.saveErr = some e) :
    processStep sde shots regen eff gt =
      .errored ("Error processing " ++ String.mk (stem gt) ++ ": " ++ e) none := by
  simp only [processStep, h, h3, h4]
  rw [if_neg (by simp [h2])]

theorem processStep_log_err (sde : Bool) (shots regen : List FName)
    (eff : StepEffects) (gt g : FName) (content e : String)
    (h : find_latest_generated_file sde shots (stem gt) screenshotsSub = some g)
    (h2 : (regen.filter
      (fun n => globMatch (stem gt ++ refinedMid) htmlDotExt n)).isEmpty = true)
    (h3 : eff.refineResult = .ok content) (h4 : eff.saveErr = none)
    (h5 : eff.logErr = some e) :
    processStep sde shots regen eff gt =
      .errored ("Error processing " ++ String.mk (stem gt) ++ ": " ++ e)
        (some (stem gt ++ refinedMid ++ fmtTs eff.tSave ++ htmlDotExt)) := by
  simp only [processStep, h, h3, h4, h5]
  rw [if_neg (by simp [h2])]

theorem processStep_ok (sde : Bool) (shots regen : List FName)
    (eff : StepEffects) (gt g : FName) (content : String)
    (h : find_latest_generated_file sde shots (stem gt) screenshotsSub = some g)
    (h2 : (regen.filter
      (fun n => globMatch (stem gt ++ refinedMid) htmlDotExt n)).isEmpty = true)
    (h3 : eff.refineResult = .ok content) (h4 : eff.saveErr = none)
    (h5 : eff.logErr = none) :
    processStep sde shots regen eff gt =
      .processed ⟨eff.tSave,
        stem gt ++ refinedMid ++ fmtTs eff.tSave ++ htmlDotExt,
        stem gt ++ refinedMid ++ fmtTs eff.tSave ++ pngDotExt,
        ⟨eff.tLog, stem gt, gt, g,
          stem gt ++ refinedMid ++ fmtTs eff.tSave ++ htmlDotExt,
          if (render_html ⟨eff.renderAvailable, eff.renderFails⟩ content
                (stem gt ++ refinedMid ++ fmtTs eff.tSave ++ pngDotExt)).isSome
          then some (stem gt ++ refinedMid ++ fmtTs eff.tSave ++ pngDotExt)
          else none⟩⟩ := by
  simp only [processStep, h, h3, h4, h5]
  rw [if_neg (by simp [h2])]

/-! ### Lemmas about the episode loop -/

theorem runSteps_cons (sde : Bool) (shots : List FName) (o : FName → StepEffects)
    (gt : FName) (rest : List FName) (stats : EpisodeStats) (regen : List FName) :
    runSteps sde shots o (gt :: rest) stats regen =
      runSteps sde shots o rest
        (applyOutcome stats regen (processStep sde shots regen (o (stem gt)) gt)).1
        (applyOutcome stats regen (processStep sde shots regen (o (stem gt)) gt)).2 :=
  rfl

theorem runSteps_counts (sde : Bool) (shots : List FName) (o : FName → StepEffects) :
    ∀ (l : List FName) (stats : EpisodeStats) (regen : List FName),
      (runSteps sde shots o l stats regen).1.steps_processed
          + (runSteps sde shots o l stats regen).1.steps_skipped
        = stats.steps_processed + stats.steps_skipped + l.length := by
  intro l
  induction l with
  | nil => intro stats regen; simp [runSteps]
  | cons gt rest ih =>
    intro stats regen
    rw [runSteps_cons, ih]
    cases hout : processStep sde shots regen (o (stem gt)) gt with
    | skippedNoCandidate => simp [applyOutcome]; omega
    | skippedAlreadyRefined => simp [applyOutcome]; omega
    | processed a => simp [applyOutcome]; omega
    | errored msg created => simp [applyOutcome]; omega

theorem runSteps_episode_id (sde : Bool) (shots : List FName)
    (o : FName → StepEffects) :
    ∀ (l : List FName) (stats : EpisodeStats) (regen : List FName),
      (runSteps sde shots o l stats regen).1.episode_id = stats.episode_id := by
  intro l
  induction l with
  | nil => intro stats regen; simp [runSteps]
  | cons gt rest ih =>
    intro stats regen
    rw [runSteps_cons, ih]
    cases hout : processStep sde shots regen (o (stem gt)) gt <;> simp [applyOutcome]

theorem applyOutcome_regen (stats : EpisodeStats) (regen : List FName)
    (out : StepOutcome) : ∃ u, (applyOutcome stats regen out).2 = regen ++ u := by
  cases out with
  | skippedNoCandidate => exact ⟨[], by simp [applyOutcome]⟩
  | skippedAlreadyRefined => exact ⟨[], by simp [applyOutcome]⟩
  | processed a => exact ⟨[a.html_filename], rfl⟩
  | errored msg created => exact ⟨created.toList, rfl⟩

theorem runSteps_regen_append (sde : Bool) (shots : List FName)
    (o : FName → StepEffects) :
    ∀ (l : List FName) (stats : EpisodeStats) (regen : List FName),
      ∃ t, (runSteps sde shots o l stats regen).2 = regen ++ t := by
  intro l
  induction l with
  | nil => intro stats regen; exact ⟨[], by simp [runSteps]⟩
  | cons gt rest ih =>
    intro stats regen
    obtain ⟨u, hu⟩ :=
      applyOutcome_regen stats regen (processStep sde shots regen (o (stem gt)) gt)
    obtain ⟨t, ht⟩ :=
      ih (applyOutcome stats regen (processStep sde shots regen (o (stem gt)) gt)).1
        (applyOutcome stats regen (processStep sde shots regen (o (stem gt)) gt)).2
    exact ⟨u ++ t, by rw [runSteps_cons, ht, hu, List.append_assoc]⟩

theorem applyOutcome_errors (stats : EpisodeStats) (regen : List FName)
    (out : StepOutcome) : ∃ u, (applyOutcome stats regen out).1.errors = stats.errors ++ u := by
  cases out with
  | skippedNoCandidate => exact ⟨[], by simp [applyOutcome]⟩
  | skippedAlreadyRefined => exact ⟨[], by simp [applyOutcome]⟩
  | processed a => exact ⟨[], by simp [applyOutcome]⟩
  | errored msg created => exact ⟨[msg], rfl⟩

theorem runSteps_errors_append (sde : Bool) (shots : List FName)
    (o : FName → StepEffects) :
    ∀ (l : List FName) (stats : EpisodeStats) (regen : List FName),
      ∃ t, (runSteps sde shots o l stats regen).1.errors = stats.errors ++ t := by
  intro l
  induction l with
  | nil => intro stats regen; exact ⟨[], by simp [runSteps]⟩
  | cons gt rest ih =>
    intro stats regen
    obtain ⟨u, hu⟩ :=
      applyOutcome_errors stats regen (processStep sde shots regen (o (stem gt)) gt)
    obtain ⟨t, ht⟩ :=
      ih (applyOutcome stats regen (processStep sde shots regen (o (stem gt)) gt)).1
        (applyOutcome stats regen (processStep sde shots regen (o (stem gt)) gt)).2
    exact ⟨u ++ t, by rw [runSteps_cons, ht, hu, List.append_assoc]⟩

theorem applyOutcome_snd (stats : EpisodeStats) (regen : List FName)
    (out : StepOutcome) : (applyOutcome stats regen out).2 = regen ++ outFiles out := by
  cases out <;> simp [applyOutcome, outFiles]

theorem applyOutcome_steps_processed (stats : EpisodeStats) (regen : List FName)
    (out : StepOutcome) (h : ∀ a, out ≠ .processed a) :
    (applyOutcome stats regen out).1.steps_processed = stats.steps_processed := by
  cases out with
  | processed a => exact absurd rfl (h a)
  | skippedNoCandidate => simp [applyOutcome]
  | skippedAlreadyRefined => simp [applyOutcome]
  | errored msg created => simp [applyOutcome]

/-- Re-running one step on a `regenerated/html` listing that already
holds everything the step's first run produced: the step creates nothing
new and is never counted as processed. -/
theorem processStep_rerun (sde : Bool) (shots : List FName) (eff : StepEffects)
    (gt : FName) (regen B : List FName)
    (hB : ∃ u, B = regen ++ outFiles (processStep sde shots regen eff gt) ++ u) :
    outFiles (processStep sde shots B eff gt) = [] ∧
    (∀ a, processStep sde shots B eff gt ≠ .processed a) := by
  obtain ⟨u, hu⟩ := hB
  cases hfind : find_latest_generated_file sde shots (stem gt) screenshotsSub with
  | none =>
    rw [processStep_noCand sde shots B eff gt hfind]
    exact ⟨rfl, by simp⟩
  | some g =>
    cases hre : (regen.filter
        (fun n => globMatch (stem gt ++ refinedMid) htmlDotExt n)).isEmpty with
    | false =>
      have e1 := processStep_already sde shots regen eff gt g hfind hre
      rw [e1] at hu
      have hre2 : (B.filter
          (fun n => globMatch (stem gt ++ refinedMid) htmlDotExt n)).isEmpty = false := by
        rw [hu]
        simp only [outFiles, List.append_nil, List.append_assoc]
        exact filter_isEmpty_false_append hre
      rw [processStep_already sde shots B eff gt g hfind hre2]
      exact ⟨rfl, by simp⟩
    | true =>
      cases hrr : eff.refineResult with
      | error e =>
        cases hre2 : (B.filter
            (fun n => globMatch (stem gt ++ refinedMid) htmlDotExt n)).isEmpty with
        | false =>
          rw [processStep_already sde shots B eff gt g hfind hre2]
          exact ⟨rfl, by simp⟩
        | true =>
          rw [processStep_refine_err sde shots B eff gt g e hfind hre2 hrr]
          exact ⟨rfl, by simp⟩
      | ok content =>
        cases hsv : eff.saveErr with
        | some e =>
          cases hre2 : (B.filter
              (fun n => globMatch (stem gt ++ refinedMid) htmlDotExt n)).isEmpty with
          | false =>
            rw [processStep_already sde shots B eff gt g hfind hre2]
            exact ⟨rfl, by simp⟩
          | true =>
            rw [processStep_save_err sde shots B eff gt g content e hfind hre2 hrr hsv]
            exact ⟨rfl, by simp⟩
        | none =>
          have hname_mem :
              stem gt ++ refinedMid ++ fmtTs eff.tSave ++ htmlDotExt ∈ B := by
            cases hlg : eff.logErr with
            | some e =>
              rw [processStep_log_err sde shots regen eff gt g content e
                hfind hre hrr hsv hlg] at hu
              simp only [outFiles, Option.toList] at hu
              rw [hu]
              simp
            | none =>
              rw [processStep_ok sde shots regen eff gt g content
                hfind hre hrr hsv hlg] at hu
              simp only [outFiles] at hu
              rw [hu]
              simp
          have hre2 : (B.filter
              (fun n => globMatch (stem gt ++ refinedMid) htmlDotExt n)).isEmpty = false :=
            filter_isEmpty_false_of_mem hname_mem
              (globMatch_decomp (stem gt ++ refinedMid) (fmtTs eff.tSave) htmlDotExt)
          rw [processStep_already sde shots B eff gt g hfind hre2]
          exact ⟨rfl, by simp⟩

/-- Idempotence core: re-running the whole loop on the listing state the
first run left behind (with arbitrary unrelated extra files `ext`)
processes nothing and leaves the listing unchanged. -/
theorem runSteps_idem (sde : Bool) (shots : List FName) (o : FName → StepEffects) :
    ∀ (l regen ext : List FName) (s₁ s₂ : EpisodeStats),
      (runSteps sde shots o l s₂
          ((runSteps sde shots o l s₁ regen).2 ++ ext)).1.steps_processed
        = s₂.steps_processed ∧
      (runSteps sde shots o l s₂ ((runSteps sde shots o l s₁ regen).2 ++ ext)).2
        = (runSteps sde shots o l s₁ regen).2 ++ ext := by
  intro l
  induction l with
  | nil =>
    intro regen ext s₁ s₂
    constructor <;> simp [runSteps]
  | cons gt rest ih =>
    intro regen ext s₁ s₂
    have hrun1 : runSteps sde shots o (gt :: rest) s₁ regen
        = runSteps sde shots o rest
            (applyOutcome s₁ regen (processStep sde shots regen (o (stem gt)) gt)).1
            (applyOutcome s₁ regen (processStep sde shots regen (o (stem gt)) gt)).2 :=
      runSteps_cons _ _ _ _ _ _ _
    rw [hrun1]
    obtain ⟨t, ht⟩ := runSteps_regen_append sde shots o rest
      (applyOutcome s₁ regen (processStep sde shots regen (o (stem gt)) gt)).1
      (applyOutcome s₁ regen (processStep sde shots regen (o (stem gt)) gt)).2
    have hB : (runSteps sde shots o rest
          (applyOutcome s₁ regen (processStep sde shots regen (o (stem gt)) gt)).1
          (applyOutcome s₁ regen (processStep sde shots regen (o (stem gt)) gt)).2).2 ++ ext
        = regen ++ outFiles (processStep sde shots regen (o (stem gt)) gt)
            ++ (t ++ ext) := by
      rw [ht, applyOutcome_snd]
      simp [List.append_assoc]
    obtain ⟨hof, hnp⟩ :=
      processStep_rerun sde shots (o (stem gt)) gt regen _ ⟨t ++ ext, hB⟩
    have hstate : (applyOutcome s₂
        ((runSteps sde shots o rest
          (applyOutcome s₁ regen (processStep sde shots regen (o (stem gt)) gt)).1
          (applyOutcome s₁ regen (processStep sde shots regen (o (stem gt)) gt)).2).2 ++ ext)
        (processStep sde shots
          ((runSteps sde shots o rest
            (applyOutcome s₁ regen (processStep sde shots regen (o (stem gt)) gt)).1
            (applyOutcome s₁ regen (processStep sde shots regen (o (stem gt)) gt)).2).2 ++ ext)
          (o (stem gt)) gt)).2
        = (runSteps sde shots o rest
            (applyOutcome s₁ regen (processStep sde shots regen (o (stem gt)) gt)).1
            (applyOutcome s₁ regen (processStep sde shots regen (o (stem gt)) gt)).2).2 ++ ext := by
      rw [applyOutcome_snd, hof, List.append_nil]
    rw [runSteps_cons, hstate]
    obtain ⟨ha, hb⟩ := ih
      (applyOutcome s₁ regen (processStep sde shots regen (o (stem gt)) gt)).2 ext
      (applyOutcome s₁ regen (processStep sde shots regen (o (stem gt)) gt)).1
      (applyOutcome s₂
        ((runSteps sde shots o rest
          (applyOutcome s₁ regen (processStep sde shots regen (o (stem gt)) gt)).1
          (applyOutcome s₁ regen (processStep sde shots regen (o (stem gt)) gt)).2).2 ++ ext)
        (processStep sde shots
          ((runSteps sde shots o rest
            (applyOutcome s₁ regen (processStep sde shots regen (o (stem gt)) gt)).1
            (applyOutcome s₁ regen (processStep sde shots regen (o (stem gt)) gt)).2).2 ++ ext)
          (o (stem gt)) gt)).1
    exact ⟨ha.trans (applyOutcome_steps_processed _ _ _ hnp), hb⟩

/-! ### Lemmas about `refine_episode`'s three paths -/

theorem refine_episode_snd_nogen (fs : EpisodeFS) (o : FName → StepEffects)
    (eid : Int) (h : fs.generatedExists = false) :
    refine_episode fs o eid
      = ({ episode_id := eid, steps_processed := 0, steps_skipped := 0,
           errors := ["No 'generated' directory found"] }, fs) := by
  simp only [refine_episode]
  rw [if_pos h]

theorem refine_episode_snd_nogt (fs : EpisodeFS) (o : FName → StepEffects)
    (eid : Int) (h1 : fs.generatedExists = true)
    (h2 : (discoveredGroundTruth fs eid).isEmpty = true) :
    refine_episode fs o eid
      = ({ episode_id := eid, steps_processed := 0, steps_skipped := 0,
           errors := ["No ground truth images found"] }, fs) := by
  simp only [refine_episode]
  rw [if_neg (by simp [h1]), if_pos h2]

theorem refine_episode_main (fs : EpisodeFS) (o : FName → StepEffects)
    (eid : Int) (h1 : fs.generatedExists = true)
    (h2 : (discoveredGroundTruth fs eid).isEmpty = false) :
    refine_episode fs o eid
      = ((runSteps fs.screenshotsDirExists fs.generatedScreenshots o
            (discoveredGroundTruth fs eid) ⟨eid, 0, 0, []⟩ fs.regeneratedHtml).1,
         { fs with regeneratedHtml :=
            (runSteps fs.screenshotsDirExists fs.generatedScreenshots o
              (discoveredGroundTruth fs eid) ⟨eid, 0, 0, []⟩ fs.regeneratedHtml).2 }) := by
  simp only [refine_episode]
  rw [if_neg (by simp [h1]), if_neg (by simp [h2])]

theorem discoveredGroundTruth_congr {fs fs' : EpisodeFS} (eid : Int)
    (h : fs.episodeFiles = fs'.episodeFiles) :
    discoveredGroundTruth fs eid = discoveredGroundTruth fs' eid := by
  simp only [discoveredGroundTruth, h]

/-! ### Claim theorems -/

/-- C1: for every invocation of the episode processor, the returned
statistics satisfy `steps_processed + steps_skipped = number of
ground-truth images discovered by the step-image glob`; on the fast exits
(no `generated` directory, or no ground-truth image discovered) both
counters are zero. -/
theorem c1_step_accounting (fs : EpisodeFS) (o : FName → StepEffects) (eid : Int) :
    ((refine_episode fs o eid).1.steps_processed
        + (refine_episode fs o eid).1.steps_skipped
      = if fs.generatedExists then (discoveredGroundTruth fs eid).length else 0) ∧
    (fs.generatedExists = false →
      (refine_episode fs o eid).1.steps_processed = 0 ∧
      (refine_episode fs o eid).1.steps_skipped = 0) ∧
    (discoveredGroundTruth fs eid = [] →
      (refine_episode fs o eid).1.steps_processed = 0 ∧
      (refine_episode fs o eid).1.steps_skipped = 0) := by
  by_cases h1 : fs.generatedExists = false
  · rw [refine_episode_snd_nogen fs o eid h1]
    exact ⟨by simp [h1], fun _ => ⟨rfl, rfl⟩, fun _ => ⟨rfl, rfl⟩⟩
  · have h1' : fs.generatedExists = true := by
      revert h1; cases fs.generatedExists <;> simp
    by_cases h2 : (discoveredGroundTruth fs eid).isEmpty = true
    · rw [refine_episode_snd_nogt fs o eid h1' h2]
      have h2' : discoveredGroundTruth fs eid = [] := List.isEmpty_iff.mp h2
      exact ⟨by simp [h1', h2'], fun hc => absurd hc h1, fun _ => ⟨rfl, rfl⟩⟩
    · have h2f : (discoveredGroundTruth fs eid).isEmpty = false := by
        revert h2; cases (discoveredGroundTruth fs eid).isEmpty <;> simp
      rw [refine_episode_main fs o eid h1' h2f]
      have hc := runSteps_counts fs.screenshotsDirExists fs.generatedScreenshots o
        (discoveredGroundTruth fs eid) ⟨eid, 0, 0, []⟩ fs.regeneratedHtml
      refine ⟨?_, fun hcon => absurd hcon h1,
        fun hcon => absurd hcon (by simp [hcon] at h2f)⟩
      simp only [h1', if_true]
      simpa using hc

/-- C2: invoking the episode processor a second time on the directory
state the first invocation left behind (same deterministic external
effects) processes zero steps, and every ground-truth image discovered by
the second run's glob is counted as skipped. -/
theorem c2_idempotent_rerun (fs : EpisodeFS) (o : FName → StepEffects) (eid : Int) :
    (refine_episode (refine_episode fs o eid).2 o eid).1.steps_processed = 0 ∧
    (refine_episode (refine_episode fs o eid).2 o eid).1.steps_skipped
      = (if (refine_episode fs o eid).2.generatedExists
          then (discoveredGroundTruth (refine_episode fs o eid).2 eid).length
          else 0) := by
  by_cases h1 : fs.generatedExists = false
  · rw [refine_episode_snd_nogen fs o eid h1]
    rw [refine_episode_snd_nogen fs o eid h1]
    simp [h1]
  · have h1' : fs.generatedExists = true := by
      revert h1; cases fs.generatedExists <;> simp
    by_cases h2 : (discoveredGroundTruth fs eid).isEmpty = true
    · rw [refine_episode_snd_nogt fs o eid h1' h2]
      rw [refine_episode_snd_nogt fs o eid h1' h2]
      simp [h1', List.isEmpty_iff.mp h2]
    · have h2f : (discoveredGroundTruth fs eid).isEmpty = false := by
        revert h2; cases (discoveredGroundTruth fs eid).isEmpty <;> simp
      rw [refine_episode_main fs o eid h1' h2f]
      have hdisc : discoveredGroundTruth
          { fs with regeneratedHtml :=
            (runSteps fs.screenshotsDirExists fs.generatedScreenshots o
              (discoveredGroundTruth fs eid) ⟨eid, 0, 0, []⟩ fs.regeneratedHtml).2 } eid
          = discoveredGroundTruth fs eid :=
        discoveredGroundTruth_congr eid rfl
      rw [refine_episode_main _ o eid (by simp [h1']) (by rw [hdisc]; exact h2f)]
      simp only [hdisc]
      have hidem := runSteps_idem fs.screenshotsDirExists fs.generatedScreenshots o
        (discoveredGroundTruth fs eid) fs.regeneratedHtml []
        ⟨eid, 0, 0, []⟩ ⟨eid, 0, 0, []⟩
      rw [List.append_nil] at hidem
      constructor
      · exact hidem.1
      · have hp0 : (runSteps fs.screenshotsDirExists fs.generatedScreenshots o
            (discoveredGroundTruth fs eid) ⟨eid, 0, 0, []⟩
            ((runSteps fs.screenshotsDirExists fs.generatedScreenshots o
              (discoveredGroundTruth fs eid) ⟨eid, 0, 0, []⟩
              fs.regeneratedHtml).2)).1.steps_processed = 0 := hidem.1
        have hc2 : (runSteps fs.screenshotsDirExists fs.generatedScreenshots o
            (discoveredGroundTruth fs eid) ⟨eid, 0, 0, []⟩
            ((runSteps fs.screenshotsDirExists fs.generatedScreenshots o
              (discoveredGroundTruth fs eid) ⟨eid, 0, 0, []⟩
              fs.regeneratedHtml).2)).1.steps_processed
            + (runSteps fs.screenshotsDirExists fs.generatedScreenshots o
              (discoveredGroundTruth fs eid) ⟨eid, 0, 0, []⟩
              ((runSteps fs.screenshotsDirExists fs.generatedScreenshots o
                (discoveredGroundTruth fs eid) ⟨eid, 0, 0, []⟩
                fs.regeneratedHtml).2)).1.steps_skipped
            = (discoveredGroundTruth fs eid).length := by
          have hc := runSteps_counts fs.screenshotsDirExists fs.generatedScreenshots o
            (discoveredGroundTruth fs eid) (⟨eid, 0, 0, []⟩ : EpisodeStats)
            ((runSteps fs.screenshotsDirExists fs.generatedScreenshots o
              (discoveredGroundTruth fs eid) ⟨eid, 0, 0, []⟩ fs.regeneratedHtml).2)
          simpa using hc
        simp only [h1', if_true]
        omega

theorem c1_step_accounting_witness :
    (refine_episode fsNoGen oTrivial 3).1.steps_processed = 0 ∧
    (refine_episode fsNoGen oTrivial 3).1.steps_skipped = 0 :=
  (c1_step_accounting fsNoGen oTrivial 3).2.1 rfl

/-- C3: any exception raised during refinement (step 3), markup
persistence (step 4) or log writing (step 5) is caught at the step
boundary: the step is counted in `steps_skipped`, the message
`Error processing {step}: {e}` is appended to the episode's error list,
and the loop simply continues with the remaining steps. -/
theorem c3_step_error_containment :
    (∀ (sde : Bool) (shots : List FName) (o : FName → StepEffects) (gt : FName)
        (l : List FName) (stats : EpisodeStats) (regen : List FName)
        (msg : String) (created : Option FName),
      processStep sde shots regen (o (stem gt)) gt = .errored msg created →
      runSteps sde shots o (gt :: l) stats regen
          = runSteps sde shots o l
              { stats with
                steps_skipped := stats.steps_skipped + 1
                errors := stats.errors ++ [msg] } (regen ++ created.toList) ∧
        msg ∈ (runSteps sde shots o (gt :: l) stats regen).1.errors) ∧
    (∀ (sde : Bool) (shots regen : List FName) (eff : StepEffects) (gt g : FName)
        (e : String),
      find_latest_generated_file sde shots (stem gt) screenshotsSub = some g →
      (regen.filter
        (fun n => globMatch (stem gt ++ refinedMid) htmlDotExt n)).isEmpty = true →
      eff.refineResult = .error e →
      processStep sde shots regen eff gt
        = .errored ("Error processing " ++ String.mk (stem gt) ++ ": " ++ e) none) ∧
    (∀ (sde : Bool) (shots regen : List FName) (eff : StepEffects) (gt g : FName)
        (content e : String),
      find_latest_generated_file sde shots (stem gt) screenshotsSub = some g →
      (regen.filter
        (fun n => globMatch (stem gt ++ refinedMid) htmlDotExt n)).isEmpty = true →
      eff.refineResult = .ok content → eff.saveErr = some e →
      processStep sde shots regen eff gt
        = .errored ("Error processing " ++ String.mk (stem gt) ++ ": " ++ e) none) ∧
    (∀ (sde : Bool) (shots regen : List FName) (eff : StepEffects) (gt g : FName)
        (content e : String),
      find_latest_generated_file sde shots (stem gt) screenshotsSub = some g →
      (regen.filter
        (fun n => globMatch (stem gt ++ refinedMid) htmlDotExt n)).isEmpty = true →
      eff.refineResult = .ok content → eff.saveErr = none → eff.logErr = some e →
      processStep sde shots regen eff gt
        = .errored ("Error processing " ++ String.mk (stem gt) ++ ": " ++ e)
            (some (stem gt ++ refinedMid ++ fmtTs eff.tSave ++ htmlDotExt))) := by
  refine ⟨?_, ?_, ?_, ?_⟩
  · intro sde shots o gt l stats regen msg created h
    have heq : runSteps sde shots o (gt :: l) stats regen
        = runSteps sde shots o l
            { stats with
              steps_skipped := stats.steps_skipped + 1
              errors := stats.errors ++ [msg] } (regen ++ created.toList) := by
      rw [runSteps_cons, h]
      simp only [applyOutcome]
    refine ⟨heq, ?_⟩
    rw [heq]
    obtain ⟨t, ht⟩ := runSteps_errors_append sde shots o l
      { stats with
        steps_skipped := stats.steps_skipped + 1
        errors := stats.errors ++ [msg] } (regen ++ created.toList)
    rw [ht]
    simp
  · intro sde shots regen eff gt g e h h2 h3
    exact processStep_refine_err sde shots regen eff gt g e h h2 h3
  · intro sde shots regen eff gt g content e h h2 h3 h4
    exact processStep_save_err sde shots regen eff gt g content e h h2 h3 h4
  · intro sde shots regen eff gt g content e h h2 h3 h4 h5
    exact processStep_log_err sde shots regen eff gt g content e h h2 h3 h4 h5

theorem c3_step_error_containment_witness :
    (runSteps true shotsA oRefineErr (gtA :: []) ⟨1, 0, 0, []⟩ []
        = runSteps true shotsA oRefineErr []
            ⟨1, 0, 1, ["Error processing a: boom"]⟩ [] ∧
      "Error processing a: boom"
        ∈ (runSteps true shotsA oRefineErr (gtA :: []) ⟨1, 0, 0, []⟩ []).1.errors) :=
  c3_step_error_containment.1 true shotsA oRefineErr gtA [] ⟨1, 0, 0, []⟩ []
    "Error processing a: boom" none (by decide)

/-- C5 counterexample: a processed step's log entry carries the clock
reading of source line 365, not the filename timestamp of line 346; with
the clock advancing between the two `datetime.now()` calls (0 at save
time, 1 at log time) the two timestamps of the same step differ. -/
theorem c5_timestamp_counterexample :
    procNameTs (processStep true shotsA [] effC5 gtA) = some 0 ∧
    procLogTs (processStep true shotsA [] effC5 gtA) = some 1 ∧
    procNameTs (processStep true shotsA [] effC5 gtA)
      ≠ procLogTs (processStep true shotsA [] effC5 gtA) := by
  decide

/-- C5 (amended): for every processed step the refined html and png
filenames carry one shared timestamp suffix (the `timestamp` local of
source line 346) and the log entry records the html path carrying it, but
the log entry's `timestamp` field is the separate clock reading of source
line 365, which need not equal the filename timestamp. -/
theorem c5_artifact_timestamps (sde : Bool) (shots regen : List FName)
    (eff : StepEffects) (gt : FName) (a : ProcessedArtifacts)
    (h : processStep sde shots regen eff gt = .processed a) :
    a.html_filename = stem gt ++ refinedMid ++ fmtTs a.ts ++ htmlDotExt ∧
    a.screenshot_filename = stem gt ++ refinedMid ++ fmtTs a.ts ++ pngDotExt ∧
    a.log.refined_html = a.html_filename ∧
    a.ts = eff.tSave ∧
    a.log.timestamp = eff.tLog := by
  cases hfind : find_latest_generated_file sde shots (stem gt) screenshotsSub with
  | none =>
    rw [processStep_noCand sde shots regen eff gt hfind] at h
    exact absurd h (by simp)
  | some g =>
    cases hre : (regen.filter
        (fun n => globMatch (stem gt ++ refinedMid) htmlDotExt n)).isEmpty with
    | false =>
      rw [processStep_already sde shots regen eff gt g hfind hre] at h
      exact absurd h (by simp)
    | true =>
      cases hrr : eff.refineResult with
      | error e =>
        rw [processStep_refine_err sde shots regen eff gt g e hfind hre hrr] at h
        exact absurd h (by simp)
      | ok content =>
        cases hsv : eff.saveErr with
        | some e =>
          rw [processStep_save_err sde shots regen eff gt g content e
            hfind hre hrr hsv] at h
          exact absurd h (by simp)
        | none =>
          cases hlg : eff.logErr with
          | some e =>
            rw [processStep_log_err sde shots regen eff gt g content e
              hfind hre hrr hsv hlg] at h
            exact absurd h (by simp)
          | none =>
            rw [processStep_ok sde shots regen eff gt g content
              hfind hre hrr hsv hlg] at h
            simp only [StepOutcome.processed.injEq] at h
            subst h
            exact ⟨rfl, rfl, rfl, rfl, rfl⟩

theorem c5_artifact_timestamps_witness :
    artsW.html_filename = stem gtA ++ refinedMid ++ fmtTs artsW.ts ++ htmlDotExt ∧
    artsW.screenshot_filename = stem gtA ++ refinedMid ++ fmtTs artsW.ts ++ pngDotExt ∧
    artsW.log.refined_html = artsW.html_filename ∧
    artsW.ts = effC5.tSave ∧
    artsW.log.timestamp = effC5.tLog :=
  c5_artifact_timestamps true shotsA [] effC5 gtA artsW (by decide)

/-- C6: the artifact locator returns absent when the target subdirectory
does not exist or no file matches `{step}_*.{ext}`; when it returns a
file, that file is a match and is lexicographically greatest among the
matches — in particular `s_20240101_1000.png` wins over
`s_20240101_0900.png` for step `s`. -/
theorem c6_artifact_locator :
    (∀ (listing : List FName) (sn sub : FName),
      find_latest_generated_file false listing sn sub = none) ∧
    (∀ (listing : List FName) (sn sub : FName),
      locateMatches listing sn sub = [] →
      find_latest_generated_file true listing sn sub = none) ∧
    (∀ (listing : List FName) (sn sub r : FName),
      find_latest_generated_file true listing sn sub = some r →
      r ∈ locateMatches listing sn sub ∧
      ∀ m ∈ locateMatches listing sn sub, lexLe m r = true) ∧
    (find_latest_generated_file true
      ["s_20240101_0900.png".toList, "s_20240101_1000.png".toList]
      "s".toList screenshotsSub = some ("s_20240101_1000.png".toList)) := by
  refine ⟨?_, ?_, ?_, by decide⟩
  · intro listing sn sub
    simp [find_latest_generated_file]
  · intro listing sn sub h
    simp [find_latest_generated_file, lexSort, h]
  · intro listing sn sub r h
    simp only [find_latest_generated_file] at h
    rw [if_neg (by simp)] at h
    have hperm := List.perm_insertionSort lexRel (locateMatches listing sn sub)
    have hsorted := List.sorted_insertionSort lexRel (locateMatches listing sn sub)
    have hrmem : r ∈ lexSort (locateMatches listing sn sub) := getLast?_mem' h
    constructor
    · exact hperm.mem_iff.mp hrmem
    · intro m hm
      exact sorted_getLast_le _ hsorted r h m (hperm.mem_iff.mpr hm)

theorem c6_artifact_locator_witness :
    find_latest_generated_file false shotsA "a".toList screenshotsSub = none ∧
    find_latest_generated_file true [] "a".toList screenshotsSub = none :=
  ⟨c6_artifact_locator.1 shotsA "a".toList screenshotsSub,
   c6_artifact_locator.2.1 [] "a".toList screenshotsSub (by decide)⟩

/-- C7: the renderer never raises: it returns either absent or the output
path; when the headless browsing capability is unavailable, or the render
attempt itself fails, it returns absent; and a step whose markup was
saved is still counted as processed when the render result is absent,
with the log entry's refined screenshot recorded as absent. -/
theorem c7_renderer_degraded :
    (∀ (env : RenderEnv) (h : String) (p : FName),
      render_html env h p = none ∨ render_html env h p = some p) ∧
    (∀ (env : RenderEnv) (h : String) (p : FName), env.available = false →
      render_html env h p = none) ∧
    (∀ (env : RenderEnv) (h : String) (p : FName), env.renderFails = true →
      render_html env h p = none) ∧
    (∀ (sde : Bool) (shots regen : List FName) (eff : StepEffects) (gt g : FName)
        (content : String),
      find_latest_generated_file sde shots (stem gt) screenshotsSub = some g →
      (regen.filter
        (fun n => globMatch (stem gt ++ refinedMid) htmlDotExt n)).isEmpty = true →
      eff.refineResult = .ok content → eff.saveErr = none → eff.logErr = none →
      eff.renderAvailable = false →
      ∃ a, processStep sde shots regen eff gt = .processed a ∧
        a.log.refined_screenshot = none) := by
  refine ⟨?_, ?_, ?_, ?_⟩
  · intro env h p
    unfold render_html
    by_cases h1 : env.available = false
    · left; rw [if_pos h1]
    · rw [if_neg h1]
      by_cases h2 : env.renderFails = true
      · left; rw [if_pos h2]
      · right; rw [if_neg h2]
  · intro env h p h1
    unfold render_html
    rw [if_pos h1]
  · intro env h p h2
    unfold render_html
    by_cases h1 : env.available = false
    · rw [if_pos h1]
    · rw [if_neg h1, if_pos h2]
  · intro sde shots regen eff gt g content hfind hre hrr hsv hlg hra
    refine ⟨_, processStep_ok sde shots regen eff gt g content hfind hre hrr hsv hlg, ?_⟩
    simp [render_html, hra]

theorem c7_renderer_degraded_witness :
    ∃ a, processStep true shotsA [] effC5 gtA = .processed a ∧
      a.log.refined_screenshot = none :=
  c7_renderer_degraded.2.2.2 true shotsA [] effC5 gtA ("a_1.png".toList) "h"
    (by decide) (by decide) rfl rfl rfl rfl

/-- C8: the response post-processing extracts the content between the
first matching pair of fence markers and trims surrounding whitespace: a
response whose only backticks form an `` ```html ``-tagged fence pair
cleans to the trimmed enclosed content; a response with a plain fence
pair (and no `` ```html `` tag anywhere) likewise; and the input
`` ```html\n<div></div>\n``` `` cleans to `<div></div>`. -/
theorem c8_markup_cleanup :
    (∀ pre mid post : FName, (∀ c ∈ pre, c ≠ '`') → (∀ c ∈ mid, c ≠ '`') →
      (∀ c ∈ post, c ≠ '`') →
      clean_html_response (pre ++ fenceHtml ++ mid ++ fenceTicks ++ post)
        = pyStrip mid) ∧
    (∀ pre mid post : FName, (∀ c ∈ pre, c ≠ '`') → (∀ c ∈ mid, c ≠ '`') →
      containsSub fenceHtml (pre ++ fenceTicks ++ mid ++ fenceTicks ++ post) = false →
      clean_html_response (pre ++ fenceTicks ++ mid ++ fenceTicks ++ post)
        = pyStrip mid) ∧
    clean_html_response ("```html\n<div></div>\n```".toList) = "<div></div>".toList :=
  ⟨clean_branch1, clean_branch2, by decide⟩

theorem c8_markup_cleanup_witness :
    clean_html_response (([] : FName) ++ fenceHtml ++ " x ".toList ++ fenceTicks ++ [])
      = pyStrip (" x ".toList) :=
  c8_markup_cleanup.1 [] (" x ".toList) [] (by decide) (by decide) (by decide)

/-- C9 counterexample: a step whose refined markup file already exists
but whose candidate screenshot is absent is skipped as
`SKIPPED_NO_CANDIDATE`, not `SKIPPED_ALREADY_REFINED`: the code locates
the candidate (source line 318) before the resume check (line 327). -/
theorem c9_resume_order_counterexample :
    (regenA.filter
      (fun n => globMatch (stem gtA ++ refinedMid) htmlDotExt n)).isEmpty = false ∧
    processStep true [] regenA effC5 gtA = .skippedNoCandidate ∧
    processStep true [] regenA effC5 gtA ≠ .skippedAlreadyRefined := by
  decide

/-- C9 (amended): candidate location precedes the resume check: a step
with no matching candidate is `SKIPPED_NO_CANDIDATE` even when its
refined markup already exists, and `SKIPPED_ALREADY_REFINED` occurs
exactly when a candidate is found and refined markup already exists; in
both cases the step is skipped, never re-processed. -/
theorem c9_resume_after_candidate :
    (∀ (sde : Bool) (shots regen : List FName) (eff : StepEffects) (gt : FName),
      find_latest_generated_file sde shots (stem gt) screenshotsSub = none →
      processStep sde shots regen eff gt = .skippedNoCandidate) ∧
    (∀ (sde : Bool) (shots regen : List FName) (eff : StepEffects) (gt g : FName),
      find_latest_generated_file sde shots (stem gt) screenshotsSub = some g →
      (regen.filter
        (fun n => globMatch (stem gt ++ refinedMid) htmlDotExt n)).isEmpty = false →
      processStep sde shots regen eff gt = .skippedAlreadyRefined) :=
  ⟨fun sde shots regen eff gt h => processStep_noCand sde shots regen eff gt h,
   fun sde shots regen eff gt g h h2 =>
     processStep_already sde shots regen eff gt g h h2⟩

theorem c9_resume_after_candidate_witness :
    processStep true [] regenA effC5 gtA = .skippedNoCandidate ∧
    processStep true shotsA regenA effC5 gtA = .skippedAlreadyRefined :=
  ⟨c9_resume_after_candidate.1 true [] regenA effC5 gtA (by decide),
   c9_resume_after_candidate.2 true shotsA regenA effC5 gtA ("a_1.png".toList)
     (by decide) (by decide)⟩

/-! ### Lemmas about the range driver -/

theorem stepRange_skip (rfs : RangeFS) (o : Int → FName → StepEffects)
    (acc : RangeStats) (i : Int) (h : isProcessedEpisode rfs i = false) :
    stepRange rfs o acc i =
      { acc with
        total_episodes := acc.total_episodes + 1
        episodes_skipped := acc.episodes_skipped + 1 } := by
  cases hep : rfs.episodes i with
  | none => simp only [stepRange, hep]
  | some efs =>
    have hg : efs.generatedExists = false := by
      simpa [isProcessedEpisode, hep] using h
    simp only [stepRange, hep]
    rw [if_pos hg]

theorem stepRange_proc (rfs : RangeFS) (o : Int → FName → StepEffects)
    (acc : RangeStats) (i : Int) (h : isProcessedEpisode rfs i = true) :
    stepRange rfs o acc i =
      { acc with
        total_episodes := acc.total_episodes + 1
        episodes_processed := acc.episodes_processed + 1
        total_steps_processed :=
          acc.total_steps_processed + (episodeDetail rfs o i).steps_processed
        total_steps_skipped :=
          acc.total_steps_skipped + (episodeDetail rfs o i).steps_skipped
        episode_details := acc.episode_details ++ [episodeDetail rfs o i] } := by
  cases hep : rfs.episodes i with
  | none => simp [isProcessedEpisode, hep] at h
  | some efs =>
    have hg : efs.generatedExists = true := by
      simpa [isProcessedEpisode, hep] using h
    simp only [stepRange, episodeDetail, hep]
    rw [if_neg (by simp [hg])]

theorem foldEpisodes_spec (rfs : RangeFS) (o : Int → FName → StepEffects) :
    ∀ (ids : List Int) (acc : RangeStats),
      (foldEpisodes rfs o ids acc).total_episodes = acc.total_episodes + ids.length ∧
      (foldEpisodes rfs o ids acc).episodes_processed
          + (foldEpisodes rfs o ids acc).episodes_skipped
        = acc.episodes_processed + acc.episodes_skipped + ids.length ∧
      (foldEpisodes rfs o ids acc).episodes_processed
        = acc.episodes_processed + (ids.filter (isProcessedEpisode rfs)).length ∧
      (foldEpisodes rfs o ids acc).episode_details
        = acc.episode_details
          ++ (ids.filter (isProcessedEpisode rfs)).map (episodeDetail rfs o) ∧
      (foldEpisodes rfs o ids acc).total_steps_processed
        = acc.total_steps_processed
          + (((ids.filter (isProcessedEpisode rfs)).map (episodeDetail rfs o)).map
              (fun d => d.steps_processed)).sum ∧
      (foldEpisodes rfs o ids acc).total_steps_skipped
        = acc.total_steps_skipped
          + (((ids.filter (isProcessedEpisode rfs)).map (episodeDetail rfs o)).map
              (fun d => d.steps_skipped)).sum := by
  intro ids
  induction ids with
  | nil => intro acc; simp [foldEpisodes]
  | cons i rest ih =>
    intro acc
    have hfold : foldEpisodes rfs o (i :: rest) acc
        = foldEpisodes rfs o rest (stepRange rfs o acc i) := rfl
    cases hp : isProcessedEpisode rfs i with
    | false =>
      rw [hfold, stepRange_skip rfs o acc i hp]
      obtain ⟨h1, h2, h3, h4, h5, h6⟩ := ih
        { acc with
          total_episodes := acc.total_episodes + 1
          episodes_skipped := acc.episodes_skipped + 1 }
      refine ⟨?_, ?_, ?_, ?_, ?_, ?_⟩
      · rw [h1]; simp [List.length_cons]; omega
      · rw [h2]; simp [List.length_cons]; omega
      · rw [h3]; simp [List.filter_cons, hp]
      · rw [h4]; simp [List.filter_cons, hp]
      · rw [h5]; simp [List.filter_cons, hp]
      · rw [h6]; simp [List.filter_cons, hp]
    | true =>
      rw [hfold, stepRange_proc rfs o acc i hp]
      obtain ⟨h1, h2, h3, h4, h5, h6⟩ := ih
        { acc with
          total_episodes := acc.total_episodes + 1
          episodes_processed := acc.episodes_processed + 1
          total_steps_processed :=
            acc.total_steps_processed + (episodeDetail rfs o i).steps_processed
          total_steps_skipped :=
            acc.total_steps_skipped + (episodeDetail rfs o i).steps_skipped
          episode_details := acc.episode_details ++ [episodeDetail rfs o i] }
      refine ⟨?_, ?_, ?_, ?_, ?_, ?_⟩
      · rw [h1]; simp [List.length_cons]; omega
      · rw [h2]; simp [List.length_cons]; omega
      · rw [h3]; simp [List.filter_cons, hp]; omega
      · rw [h4]; simp [List.filter_cons, hp]
      · rw [h5]; simp [List.filter_cons, hp]; omega
      · rw [h6]; simp [List.filter_cons, hp]; omega

theorem idRange_length (s e : Int) : (idRange s e).length = (e + 1 - s).toNat := by
  unfold idRange
  rw [List.length_map, List.length_range]

theorem idRange_pairwise (s e : Int) : List.Pairwise (· < ·) (idRange s e) := by
  unfold idRange
  refine List.Pairwise.map _ ?_ (List.pairwise_lt_range _)
  intro a b hab
  omega

theorem refine_episode_id (fs : EpisodeFS) (o : FName → StepEffects) (eid : Int) :
    (refine_episode fs o eid).1.episode_id = eid := by
  by_cases h1 : fs.generatedExists = false
  · rw [refine_episode_snd_nogen fs o eid h1]
  · have h1' : fs.generatedExists = true := by
      revert h1; cases fs.generatedExists <;> simp
    by_cases h2 : (discoveredGroundTruth fs eid).isEmpty = true
    · rw [refine_episode_snd_nogt fs o eid h1' h2]
    · have h2f : (discoveredGroundTruth fs eid).isEmpty = false := by
        revert h2; cases (discoveredGroundTruth fs eid).isEmpty <;> simp
      rw [refine_episode_main fs o eid h1' h2f]
      exact runSteps_episode_id _ _ _ _ _ _

theorem episodeDetail_id (rfs : RangeFS) (o : Int → FName → StepEffects) (i : Int) :
    (episodeDetail rfs o i).episode_id = i := by
  cases hep : rfs.episodes i with
  | none => simp [episodeDetail, hep]
  | some efs => simp [episodeDetail, hep, refine_episode_id]

/-- C4: the range driver validates its bounds: `start_id < 1` and
`end_id < start_id` each abort the run with a configuration error before
any iteration, a missing base directory likewise aborts (the same
configuration-error class), and for valid bounds over an existing base
directory the run always returns aggregate statistics — no per-episode or
per-step failure ever aborts it. -/
theorem c4_range_validation :
    (∀ (rfs : RangeFS) (o : Int → FName → StepEffects) (s e : Int), s < 1 →
      runRange rfs o s e = .error .invalidStartId) ∧
    (∀ (rfs : RangeFS) (o : Int → FName → StepEffects) (s e : Int),
      1 ≤ s → e < s → runRange rfs o s e = .error .invalidEndId) ∧
    (∀ (rfs : RangeFS) (o : Int → FName → StepEffects) (s e : Int),
      1 ≤ s → s ≤ e → rfs.baseDirExists = false →
      runRange rfs o s e = .error .baseDirNotFound) ∧
    (∀ (rfs : RangeFS) (o : Int → FName → StepEffects) (s e : Int),
      1 ≤ s → s ≤ e → rfs.baseDirExists = true →
      ∃ st, runRange rfs o s e = .ok st) := by
  refine ⟨?_, ?_, ?_, ?_⟩
  · intro rfs o s e h
    simp only [runRange]
    rw [if_pos h]
  · intro rfs o s e h1 h2
    simp only [runRange]
    rw [if_neg (by omega), if_pos h2]
  · intro rfs o s e h1 h2 hb
    simp only [runRange, refine_episode_range]
    rw [if_neg (by omega), if_neg (by omega), if_pos hb]
  · intro rfs o s e h1 h2 hb
    refine ⟨foldEpisodes rfs o (idRange s e) initRangeStats, ?_⟩
    simp only [runRange, refine_episode_range]
    rw [if_neg (by omega), if_neg (by omega), if_neg (by simp [hb])]

theorem c4_range_validation_witness :
    runRange rfsEmpty oRange 0 5 = .error .invalidStartId ∧
    runRange rfsEmpty oRange 2 1 = .error .invalidEndId ∧
    ∃ st, runRange rfsEmpty oRange 1 3 = .ok st :=
  ⟨c4_range_validation.1 rfsEmpty oRange 0 5 (by decide),
   c4_range_validation.2.1 rfsEmpty oRange 2 1 (by decide) (by decide),
   c4_range_validation.2.2.2 rfsEmpty oRange 1 3 (by decide) (by decide) rfl⟩

/-- C10: for a valid range over an existing base directory the aggregate
statistics satisfy `total_episodes = end - start + 1` and
`episodes_processed + episodes_skipped = total_episodes`;
`episode_details` holds exactly one record per processed (non-skipped)
episode, in ascending id order; and a skipped episode contributes neither
a detail record nor any step counts (the step totals are exactly the sums
over the detail records). -/
theorem c10_range_accounting (rfs : RangeFS) (o : Int → FName → StepEffects)
    (s e : Int) (st : RangeStats) (h1 : 1 ≤ s) (h2 : s ≤ e)
    (h : runRange rfs o s e = .ok st) :
    (st.total_episodes : Int) = e - s + 1 ∧
    st.episodes_processed + st.episodes_skipped = st.total_episodes ∧
    st.episode_details
      = ((idRange s e).filter (isProcessedEpisode rfs)).map (episodeDetail rfs o) ∧
    st.episodes_processed
      = ((idRange s e).filter (isProcessedEpisode rfs)).length ∧
    st.episode_details.map (fun d => d.episode_id)
      = (idRange s e).filter (isProcessedEpisode rfs) ∧
    List.Pairwise (fun a b : EpisodeStats => a.episode_id < b.episode_id)
      st.episode_details ∧
    st.total_steps_processed
      = (st.episode_details.map (fun d => d.steps_processed)).sum ∧
    st.total_steps_skipped
      = (st.episode_details.map (fun d => d.steps_skipped)).sum := by
  have hb : rfs.baseDirExists = true := by
    by_contra hc
    have hbf : rfs.baseDirExists = false := by
      revert hc; cases rfs.baseDirExists <;> simp
    simp only [runRange, refine_episode_range] at h
    rw [if_neg (by omega), if_neg (by omega), if_pos hbf] at h
    simp at h
  have hst : foldEpisodes rfs o (idRange s e) initRangeStats = st := by
    simp only [runRange, refine_episode_range] at h
    rw [if_neg (by omega), if_neg (by omega), if_neg (by simp [hb])] at h
    simpa using h
  subst hst
  obtain ⟨h1', h2', h3', h4', h5', h6'⟩ :=
    foldEpisodes_spec rfs o (idRange s e) initRangeStats
  have hpw : List.Pairwise (fun a b : Int => a < b)
      ((idRange s e).filter (isProcessedEpisode rfs)) :=
    List.Pairwise.sublist (List.filter_sublist _) (idRange_pairwise s e)
  refine ⟨?_, ?_, ?_, ?_, ?_, ?_, ?_, ?_⟩
  · rw [h1', idRange_length]
    simp [initRangeStats]
    omega
  · rw [h2', h1']
    simp [initRangeStats]
  · rw [h4']
    simp [initRangeStats]
  · rw [h3']
    simp [initRangeStats]
  · rw [h4']
    simp only [initRangeStats, List.nil_append, List.map_map]
    rw [List.map_congr_left (fun a _ => by
      simp only [Function.comp]
      exact episodeDetail_id rfs o a)]
    exact List.map_id _
  · rw [h4']
    simp only [initRangeStats, List.nil_append]
    rw [List.pairwise_map]
    refine hpw.imp ?_
    intro a b hab
    rw [episodeDetail_id, episodeDetail_id]
    exact hab
  · rw [h5', h4']
    simp [initRangeStats]
  · rw [h6', h4']
    simp [initRangeStats]

theorem c10_range_accounting_witness :
    runRange rfsEmpty oRange 7 7 = .ok ⟨1, 0, 1, 0, 0, []⟩ ∧
    ((⟨1, 0, 1, 0, 0, []⟩ : RangeStats).total_episodes : Int) = 7 - 7 + 1 ∧
    (⟨1, 0, 1, 0, 0, []⟩ : RangeStats).episodes_processed
        + (⟨1, 0, 1, 0, 0, []⟩ : RangeStats).episodes_skipped
      = (⟨1, 0, 1, 0, 0, []⟩ : RangeStats).total_episodes :=
  ⟨rfl,
   (c10_range_accounting rfsEmpty oRange 7 7 ⟨1, 0, 1, 0, 0, []⟩
     (by decide) (by decide) rfl).1,
   (c10_range_accounting rfsEmpty oRange 7 7 ⟨1, 0, 1, 0, 0, []⟩
     (by decide) (by decide) rfl).2.1⟩

